import Mathlib

/-!
A verification development for the oxen-queue job-dispatch engine
(a durable MySQL-backed worker queue).  The repository ships its public
documentation (README, with the table schema and the semantics of every
option) and its TypeScript interface types (`types.ts`); the engine body
itself is not present, so the operational definitions below are modelled
from the specification's §4 component design, faithful to its words, and
cross-checked against the README.  Time is a single abstract tick counter
(`Nat`); where the documentation speaks of milliseconds or seconds the
same abstract unit is used, since every property proved here only
compares instants and adds delays.
-/

namespace OxenQueue

/-- Lifecycle states of a job row: `waiting`, `processing`, `success`,
`error`, `stuck` (README Data Storage section; spec §3). -/
inductive Status where
  | waiting
  | processing
  | success
  | error
  | stuck
deriving DecidableEq, Repr

/-- A row of the `oxen_queue` table, following the schema in the README's
Data Storage section.  `start_time` is the `created_ts` column in its role
as earliest-eligibility instant; `recovered` is the 0/1 tinyint flag. -/
structure Row where
  id : Nat
  job_type : String
  status : Status
  body : String
  priority : Int
  start_time : Option Nat
  batch_id : Option Nat
  unique_key : Option Nat
  started_ts : Option Nat
  result : Option String
  recovered : Nat
  running_time : Option Nat
deriving DecidableEq, Repr

/-- The table is the list of its rows. -/
abbrev Table := List Row

/-! ### Enqueue (spec §4.1, README addJob options) -/

/-- One job as handed to `addJob`/`addJobs`: a body, an optional
deduplication key, an optional priority and an optional start time
(README addJob options table). -/
structure JobSpec where
  body : String
  unique_key : Option Nat := none
  priority : Option Int := none
  start_time : Option Nat := none
deriving DecidableEq, Repr

/-- Modelled from the spec: build the row inserted by enqueue.  Status is
`waiting`; priority defaults to the enqueue wall clock (README: "Defaults
to the current timestamp in milliseconds, so by default jobs will be
popped fifo"); start time defaults to the enqueue instant. -/
def mkRow (id : Nat) (jt : String) (j : JobSpec) (now : Nat) : Row :=
  { id := id
    job_type := jt
    status := Status.waiting
    body := j.body
    priority := j.priority.getD (now : Int)
    start_time := some (j.start_time.getD now)
    batch_id := none
    unique_key := j.unique_key
    started_ts := none
    result := none
    recovered := 0
    running_time := none }

/-- Is some live row of the table already carrying dedup key `k`?
(The backing store enforces `UNIQUE(unique_key)`.) -/
def hasKey (t : Table) (k : Nat) : Bool :=
  t.any fun r => decide (r.unique_key = some k)

/-- Outcome of a single enqueue: the row was inserted, or the store
reported a benign uniqueness conflict ("deduplicated", row count zero). -/
inductive EnqueueOutcome where
  | inserted
  | deduplicated
deriving DecidableEq, Repr

/-- Modelled from the spec: single enqueue (spec §4.1 "Enqueue (single)").
A uniqueness conflict on `unique_key` is not an error: the table is left
unchanged and the outcome is `deduplicated`; otherwise the new `waiting`
row is appended. -/
def addJob (t : Table) (jt : String) (j : JobSpec) (id now : Nat) :
    Table × EnqueueOutcome :=
  match j.unique_key with
  | some k =>
    if hasKey t k then (t, EnqueueOutcome.deduplicated)
    else (t ++ [mkRow id jt j now], EnqueueOutcome.inserted)
  | none => (t ++ [mkRow id jt j now], EnqueueOutcome.inserted)

/-- Modelled from the spec: batch enqueue (spec §4.1 "Enqueue (batch)")
with insert-ignore semantics: every non-conflicting row is persisted,
conflicting rows are silently dropped.  Ids are assigned from a running
counter. -/
def addJobs (t : Table) (jt : String) (jobs : List JobSpec)
    (firstId now : Nat) : Table :=
  (jobs.foldl
    (fun acc j =>
      ((addJob acc.1 jt j acc.2 now).1, acc.2 + 1))
    (t, firstId)).1

/-- Number of live rows carrying dedup key `k`. -/
def liveCount (t : Table) (k : Nat) : Nat :=
  t.countP fun r => decide (r.unique_key = some k)

/-! ### Claim (spec §4.1 "Claim(N, job_type)") -/

/-- The claim UPDATE's row predicate: `job_type = :T AND status =
'waiting' AND batch_id IS NULL AND (start_time IS NULL OR start_time <=
now())` (spec §4.1 step 2). -/
def eligibleB (T : String) (now : Nat) (r : Row) : Bool :=
  decide (r.job_type = T) && decide (r.status = Status.waiting) &&
    decide (r.batch_id = none) &&
    (match r.start_time with
     | none => true
     | some ts => decide (ts ≤ now))

theorem eligibleB_iff (T : String) (now : Nat) (r : Row) :
    eligibleB T now r = true ↔
      r.job_type = T ∧ r.status = Status.waiting ∧ r.batch_id = none ∧
        (∀ ts, r.start_time = some ts → ts ≤ now) := by
  cases h : r.start_time <;>
    simp [eligibleB, h, and_assoc]

/-- `ORDER BY priority ASC`: lower priority values sort earlier. -/
def byPrio (a b : Row) : Prop := a.priority ≤ b.priority

instance : DecidableRel byPrio := fun a b =>
  inferInstanceAs (Decidable (a.priority ≤ b.priority))

instance : IsTotal Row byPrio := ⟨fun a b => le_total a.priority b.priority⟩

instance : IsTrans Row byPrio := ⟨fun _ _ _ h h' => le_trans h h'⟩

/-- Tag a row as claimed: `batch_id = :B`, `started_ts = now()`,
`status = 'processing'` (spec §4.1 step 2). -/
def tagRow (B now : Nat) (r : Row) : Row :=
  { r with batch_id := some B, started_ts := some now,
           status := Status.processing }

/-- The rows the claim UPDATE touches: the eligible rows, in ascending
priority order, limited to `N`. -/
def claimSelect (N : Nat) (T : String) (now : Nat) (t : Table) :
    List Row :=
  ((t.filter (eligibleB T now)).insertionSort byPrio).take N

/-- The ids of the rows the claim UPDATE touches. -/
def claimIds (N : Nat) (T : String) (now : Nat) (t : Table) : List Nat :=
  (claimSelect N T now t).map Row.id

/-- Modelled from the spec: `Claim(N, job_type)` (spec §4.1).  A fresh
`batch_id` `B` is supplied by the caller; the conditional UPDATE tags the
selected rows and the read-back returns them.  Result: the updated table
and the list of claimed (tagged) rows. -/
def claim (N : Nat) (T : String) (B now : Nat) (t : Table) :
    Table × List Row :=
  (t.map (fun r => if r.id ∈ claimIds N T now t then tagRow B now r else r),
   (claimSelect N T now t).map (tagRow B now))

/-! ### Finalize, Requeue, Recover (spec §4.1) -/

/-- Terminal classification of a finished job. -/
inductive Outcome where
  | success (res : String)
  | error (desc : String)
deriving DecidableEq, Repr

/-- The status a finalize outcome writes. -/
def Outcome.status : Outcome → Status
  | Outcome.success _ => Status.success
  | Outcome.error _ => Status.error

/-- The `result` text a finalize outcome writes. -/
def Outcome.result : Outcome → String
  | Outcome.success res => res
  | Outcome.error desc => desc

/-- Modelled from the spec: `Finalize(id, outcome)` (spec §4.1): a single
conditional UPDATE on the processing row with this id, setting `status`
to `success` or `error`, writing `result`, computing `running_time =
now() - started_ts`, and leaving `batch_id` untouched.  Per the README's
`unique_key` documentation ("This constraint is removed once the job
finishes"), the dedup key is cleared when the row reaches a terminal
status.  Conditioning on `status = processing` reflects spec §5
("idempotent under retry ... because they are conditioned on current row
state") and invariant I2 (terminal rows never change). -/
def finalize (id : Nat) (o : Outcome) (now : Nat) (t : Table) : Table :=
  t.map fun r =>
    if r.id = id ∧ r.status = Status.processing then
      { r with status := o.status,
               result := some o.result,
               running_time := some (now - r.started_ts.getD now),
               unique_key := none }
    else r

/-- Modelled from the spec: `Requeue(id, delay)` (spec §4.1): sets
`status = 'waiting'`, `batch_id = NULL`, `start_time = now() + delay` on
the processing row with this id; used by retry.  The `status =
processing` condition reflects invariant I2. -/
def requeue (id delay now : Nat) (t : Table) : Table :=
  t.map fun r =>
    if r.id = id ∧ r.status = Status.processing then
      { r with status := Status.waiting, batch_id := none,
               start_time := some (now + delay) }
    else r

/-- The stuck-scan predicate (spec §4.1 `ScanStuck`): `status =
'processing' AND started_ts < now() - threshold`, scoped to the queue's
`job_type`. -/
def stuckB (T : String) (thr now : Nat) (r : Row) : Bool :=
  decide (r.job_type = T) && decide (r.status = Status.processing) &&
    (match r.started_ts with
     | none => false
     | some ts => decide (ts + thr < now))

/-- Modelled from the spec: the recovery sweep (spec §4.1): flips every
stuck row to `waiting`, clears `batch_id`, sets `recovered = 1`, and
returns how many rows were moved. -/
def recoverStuck (T : String) (thr now : Nat) (t : Table) :
    Table × Nat :=
  (t.map (fun r =>
      if stuckB T thr now r then
        { r with status := Status.waiting, batch_id := none,
                 recovered := 1 }
      else r),
   (t.filter (stuckB T thr now)).length)

/-- The recovery threshold defaults to one minute (spec §4.1; README:
"Oxen will check for stuck jobs every minute"). -/
def defaultRecoveryThreshold : Nat := 60

/-! ### Encoded values and the retry sentinel (spec §6) -/

/-- A minimal model of the encoded (JSON) form of a work function's
return value, enough to express the wire contract of the retry
sentinel. -/
inductive Json where
  | null
  | num (n : Int)
  | str (s : String)
  | obj (fields : List (String × Json))
  | arr (elems : List Json)

/-- The retry sentinel key (spec §6, README "Retrying Jobs"). -/
def retryKey : String := "_oxen_queue_retry_seconds"

/-- Look an object field up by key (first match wins). -/
def lookupField (k : String) : List (String × Json) → Option Json
  | [] => none
  | (k', v) :: fs => if k' = k then some v else lookupField k fs

/-- Inspect an encoded return value for the retry sentinel shape
`\x7b _oxen_queue_retry_seconds: S \x7d` with `S` a non-negative number
(spec §6: "a wire contract ... the Supervisor inspects the encoded
return value for this shape before classifying success"). -/
def detectRetry (v : Json) : Option Int :=
  match v with
  | Json.obj fields =>
    match lookupField retryKey fields with
    | some (Json.num s) => if 0 ≤ s then some s else none
    | _ => none
  | _ => none

/-! ### Job Supervisor (spec §4.4) -/

/-- How the work function finished: it returned a value (given in
encoded form), or it threw / returned an error. -/
inductive WorkOutcome where
  | value (v : Json)
  | thrown (msg : String)

/-- An event arriving at the supervisor's first-finisher gate: the work
function finished, or the timeout timer fired. -/
inductive RaceEvent where
  | workDone (o : WorkOutcome)
  | timerFired

/-- The supervisor's classification of a finished job (spec §4.4 step
3): success, retry with a delay, or error. -/
inductive Classification where
  | success (v : Json)
  | retry (s : Int)
  | error (desc : String)

/-- Error description recorded when the timer wins the race; it names
the timeout (spec §7: "same path as job failure, with an error
description naming the timeout"). -/
def timeoutDesc (timeout : Nat) : String :=
  "job timed out after " ++ toString timeout ++ " seconds"

/-- Error description recorded for a thrown / returned error (message
and stack are captured into `result`). -/
def errorDesc (msg : String) : String :=
  "job failed: " ++ msg

/-- Modelled from the spec: classify one race outcome (spec §4.4 step
3): a plain value is a success; a value carrying the retry sentinel is a
retry; a thrown error or a timer firing is an error. -/
def classify (timeout : Nat) : RaceEvent → Classification
  | RaceEvent.workDone (WorkOutcome.value v) =>
    match detectRetry v with
    | some s => Classification.retry s
    | none => Classification.success v
  | RaceEvent.workDone (WorkOutcome.thrown m) =>
    Classification.error (errorDesc m)
  | RaceEvent.timerFired => Classification.error (timeoutDesc timeout)

/-- The supervisor's single-shot gate: once settled by the first
finisher, it records the decided store action and how often each user
callback fired. -/
structure SupGate where
  settled : Bool
  action : Option Classification
  successCbs : Nat
  errorCbs : Nat

/-- The gate before any event has arrived. -/
def initGate : SupGate :=
  { settled := false, action := none, successCbs := 0, errorCbs := 0 }

/-- Modelled from the spec: one event hitting the gate.  The first
finisher wins: a settled gate discards the event entirely, callbacks
included (spec §4.4: "the losing side is discarded (late work results
after timeout are ignored, including their callbacks)").  A success
fires `on_job_success`, an error fires `on_job_error`, a retry fires no
callback. -/
def supStep (timeout : Nat) (g : SupGate) (e : RaceEvent) : SupGate :=
  if g.settled then g
  else
    match classify timeout e with
    | Classification.success v =>
      { settled := true, action := some (Classification.success v),
        successCbs := g.successCbs + 1, errorCbs := g.errorCbs }
    | Classification.retry s =>
      { settled := true, action := some (Classification.retry s),
        successCbs := g.successCbs, errorCbs := g.errorCbs }
    | Classification.error d =>
      { settled := true, action := some (Classification.error d),
        successCbs := g.successCbs, errorCbs := g.errorCbs + 1 }

/-- Run the gate over the sequence of race events, in arrival order. -/
def runSup (timeout : Nat) (events : List RaceEvent) : SupGate :=
  events.foldl (supStep timeout) initGate

/-- Modelled from the spec: the store call the supervisor issues once
the gate has settled (spec §4.4 step 3): finalize on success or error,
requeue on retry. -/
def superviseStore (jobId timeout now : Nat) (events : List RaceEvent)
    (encode : Json → String) (t : Table) : Table :=
  match (runSup timeout events).action with
  | some (Classification.success v) =>
    finalize jobId (Outcome.success (encode v)) now t
  | some (Classification.retry s) => requeue jobId s.toNat now t
  | some (Classification.error d) =>
    finalize jobId (Outcome.error d) now t
  | none => t

/-- The per-job timeout defaults to 60 seconds (README process()
options; spec §4.4). -/
def defaultTimeout : Nat := 60

/-! ### Adaptive Poller (spec §4.2) -/

/-- The shortest inter-poll delay, ms (README constructor options). -/
def defaultFastestPollingRate : ℚ := 100

/-- The longest inter-poll delay, ms (README constructor options). -/
def defaultSlowestPollingRate : ℚ := 10000

/-- The idle backoff factor (README constructor options). -/
def defaultPollingBackoffRate : ℚ := 11 / 10

/-- Modelled from the spec: the poller's delay update after one poll
(spec §4.2): a poll that found at least one job resets the delay to the
fastest rate; an empty poll multiplies it by the backoff factor, capped
at the slowest rate. -/
def pollStep (dmin dmax b : ℚ) (found : Nat) (d : ℚ) : ℚ :=
  if 0 < found then dmin else min dmax (d * b)

/-- The delay after `k` consecutive empty polls starting from delay
`d`. -/
def idlePolls (dmin dmax b : ℚ) : Nat → ℚ → ℚ
  | 0, d => d
  | k + 1, d => idlePolls dmin dmax b k (pollStep dmin dmax b 0 d)

/-! ### Dispatcher (spec §4.3) -/

/-- Per-dispatcher mutable state: the number of in-flight jobs, whether
a batch request is outstanding, and the size of that request. -/
structure DState where
  inflight : Nat
  fetching : Bool
  requested : Nat
deriving DecidableEq, Repr

/-- The dispatcher before any step. -/
def initDState : DState :=
  { inflight := 0, fetching := false, requested := 0 }

/-- The observable actions of the dispatcher loop: begin a batch
request, receive a batch of `found` jobs, or see one supervised job
finish. -/
inductive DLabel where
  | startFetch
  | finishFetch (found : Nat)
  | jobDone
deriving DecidableEq, Repr

/-- Modelled from the spec: one dispatcher step (spec §4.3).  A fetch
may start only when none is outstanding (the `fetching` guard) and a
slot is free, and requests exactly the free slots `concurrency -
inflight`; a fetch completes with at most the requested number of jobs,
each occupying a slot; a finished job releases its slot.  `none` means
the action is not enabled in this state. -/
def dstep (c : Nat) (l : DLabel) (s : DState) : Option DState :=
  match l with
  | DLabel.startFetch =>
    if s.fetching = false ∧ s.inflight < c then
      some { inflight := s.inflight, fetching := true,
             requested := c - s.inflight }
    else none
  | DLabel.finishFetch found =>
    if s.fetching = true ∧ found ≤ s.requested then
      some { inflight := s.inflight + found, fetching := false,
             requested := 0 }
    else none
  | DLabel.jobDone =>
    if 0 < s.inflight then
      some { s with inflight := s.inflight - 1 }
    else none

/-- Run the dispatcher over a sequence of attempted actions, skipping
the ones not enabled (a disabled action changes nothing). -/
def drun (c : Nat) (ls : List DLabel) (s : DState) : DState :=
  ls.foldl (fun s l => (dstep c l s).getD s) s

/-- The dispatcher invariant: `inflight` never exceeds `concurrency`
and, while a batch request is outstanding, the slots it asked for are
still covered (`inflight + requested ≤ concurrency`). -/
def DInv (c : Nat) (s : DState) : Prop :=
  s.inflight ≤ c ∧ (s.fetching = true → s.inflight + s.requested ≤ c)

instance (c : Nat) (s : DState) : Decidable (DInv c s) := by
  unfold DInv
  infer_instance

/-! ### Public configuration surface (src/types.ts) -/

/-- `retryDelay`: a fixed number of seconds, or a function of the
attempt number (`number | ((attempt: number) => number)` in
`ProcessConfig` of types.ts). -/
inductive RetryDelay where
  | fixed (seconds : Nat)
  | perAttempt (f : Nat → Nat)

/-- The delay `retryDelay` yields for a given attempt number. -/
def resolveRetryDelay : RetryDelay → Nat → Nat
  | RetryDelay.fixed s, _ => s
  | RetryDelay.perAttempt f, attempt => f attempt

/-- `ProcessConfig` from src/types.ts: the options accepted by
`process()`.  `workFn` is required; the rest are optional. -/
structure ProcessConfig where
  workFn : Json → WorkOutcome
  concurrency : Option Nat
  timeout : Option Nat
  recoverStuckJobs : Option Bool
  maxRetry : Option Nat
  retryDelay : Option RetryDelay

/-- `RetryConfig` from src/types.ts: the engine's record of a retried
job, carrying the configured delay and the current attempt number. -/
structure RetryConfig where
  jobId : Nat
  retrySeconds : RetryDelay
  currentTry : Nat

/-! ## Basic facts about the claim protocol -/

theorem tagRow_id (B now : Nat) (r : Row) : (tagRow B now r).id = r.id := rfl

theorem tagRow_batch_id (B now : Nat) (r : Row) :
    (tagRow B now r).batch_id = some B := rfl

/-- Every row the claim UPDATE touches is a row of the table satisfying
the UPDATE's predicate. -/
theorem mem_of_mem_claimSelect {N : Nat} {T : String} {now : Nat}
    {t : Table} {r : Row} (h : r ∈ claimSelect N T now t) :
    r ∈ t ∧ eligibleB T now r = true := by
  have h1 : r ∈ (t.filter (eligibleB T now)).insertionSort byPrio :=
    List.take_subset _ _ h
  have h2 : r ∈ t.filter (eligibleB T now) :=
    (List.mem_insertionSort byPrio).1 h1
  exact ⟨List.mem_of_mem_filter h2, List.of_mem_filter h2⟩

/-- The claim selection is sorted by ascending priority. -/
theorem claimSelect_sorted (N : Nat) (T : String) (now : Nat)
    (t : Table) : List.Sorted byPrio (claimSelect N T now t) :=
  List.Pairwise.sublist (List.take_sublist _ _)
    (List.sorted_insertionSort byPrio _)

/-- The claim selection respects the LIMIT. -/
theorem claimSelect_length_le (N : Nat) (T : String) (now : Nat)
    (t : Table) : (claimSelect N T now t).length ≤ N := by
  simp [claimSelect]

/-- The returned rows carry exactly the ids the UPDATE touched. -/
theorem claim_snd_ids (N : Nat) (T : String) (B now : Nat) (t : Table) :
    ((claim N T B now t).2.map Row.id) = claimIds N T now t := by
  simp [claim, claimIds, List.map_map, Function.comp_def, tagRow_id]

/-- A row of the updated table that still has `batch_id IS NULL` was not
touched by the claim event, so its id is none of the claimed ids. -/
theorem claim_fst_batch_none_not_claimed {N : Nat} {T : String}
    {B now : Nat} {t : Table} {r' : Row}
    (h : r' ∈ (claim N T B now t).1) (hb : r'.batch_id = none) :
    r'.id ∉ claimIds N T now t := by
  obtain ⟨r, hr, hmap⟩ := List.mem_map.1 h
  by_cases hid : r.id ∈ claimIds N T now t
  · rw [if_pos hid] at hmap
    rw [← hmap] at hb
    simp [tagRow] at hb
  · rw [if_neg hid] at hmap
    rw [← hmap]
    exact hid

/-! ## Claim theorems -/

/-- Claim C2: `Claim(N, job_type)` returns at most `N` rows; every
returned row had, at the moment of the tagging update, the requested
`job_type`, status `waiting`, `batch_id` NULL, and a `start_time` absent
or at most `now`; the rows are selected in ascending priority order; a
waiting row with a future `start_time` is never returned; and the
default priority of an enqueued job is the enqueue wall clock, so
equal-priority (default) jobs pop FIFO. -/
theorem claim_returns_eligible_sorted (N : Nat) (T : String)
    (B now : Nat) (t : Table) :
    ((claim N T B now t).2.length ≤ N) ∧
    (∀ r' ∈ (claim N T B now t).2, ∃ r ∈ t,
        r' = tagRow B now r ∧ r.job_type = T ∧
        r.status = Status.waiting ∧ r.batch_id = none ∧
        (∀ ts, r.start_time = some ts → ts ≤ now)) ∧
    (List.Sorted byPrio (claim N T B now t).2) ∧
    (∀ r' ∈ (claim N T B now t).2, ∀ ts, r'.start_time = some ts →
        ts ≤ now) ∧
    (∀ (id nowEnq : Nat) (jt : String) (j : JobSpec),
        j.priority = none → (mkRow id jt j nowEnq).priority = (nowEnq : Int)) := by
  refine ⟨?_, ?_, ?_, ?_, ?_⟩
  · simpa [claim] using claimSelect_length_le N T now t
  · intro r' hr'
    obtain ⟨r, hr, hmap⟩ := List.mem_map.1 hr'
    obtain ⟨hmem, helig⟩ := mem_of_mem_claimSelect hr
    obtain ⟨h1, h2, h3, h4⟩ := (eligibleB_iff T now r).1 helig
    exact ⟨r, hmem, hmap.symm, h1, h2, h3, h4⟩
  · have hs := claimSelect_sorted N T now t
    have : List.Sorted byPrio ((claimSelect N T now t).map (tagRow B now)) := by
      refine (List.pairwise_map).2 ?_
      exact hs.imp (fun h => h)
    simpa [claim] using this
  · intro r' hr' ts hts
    obtain ⟨r, hr, hmap⟩ := List.mem_map.1 hr'
    obtain ⟨hmem, helig⟩ := mem_of_mem_claimSelect hr
    obtain ⟨_, _, _, h4⟩ := (eligibleB_iff T now r).1 helig
    have : r.start_time = some ts := by
      rw [← hmap] at hts
      exact hts
    exact h4 ts this
  · intro id nowEnq jt j hj
    simp [mkRow, hj]

/-- Claim C1: two claim events against the same `job_type` — serialized
by the store, since the conditional UPDATE's `batch_id IS NULL`
predicate lets the first writer win — never return the same row id, and
afterwards each `batch_id` identifies exactly the rows of its own claim
event.  Concurrency is modelled by the serialization the row locks
impose: the second UPDATE runs on the table the first one produced. -/
theorem claim_no_double_claim (N1 N2 : Nat) (T : String)
    (B1 B2 now1 now2 : Nat) (t : Table)
    (hB1 : ∀ r ∈ t, r.batch_id ≠ some B1)
    (hB2 : ∀ r ∈ t, r.batch_id ≠ some B2)
    (hne : B1 ≠ B2) :
    (∀ r1 ∈ (claim N1 T B1 now1 t).2,
     ∀ r2 ∈ (claim N2 T B2 now2 (claim N1 T B1 now1 t).1).2,
        r1.id ≠ r2.id) ∧
    (∀ r ∈ (claim N2 T B2 now2 (claim N1 T B1 now1 t).1).1,
        (r.batch_id = some B1 ↔
          r.id ∈ (claim N1 T B1 now1 t).2.map Row.id)) ∧
    (∀ r ∈ (claim N2 T B2 now2 (claim N1 T B1 now1 t).1).1,
        (r.batch_id = some B2 ↔
          r.id ∈ (claim N2 T B2 now2 (claim N1 T B1 now1 t).1).2.map Row.id)) := by
  set t1 := (claim N1 T B1 now1 t).1 with ht1
  have hids1 : (claim N1 T B1 now1 t).2.map Row.id = claimIds N1 T now1 t :=
    claim_snd_ids N1 T B1 now1 t
  have hids2 : (claim N2 T B2 now2 t1).2.map Row.id = claimIds N2 T now2 t1 :=
    claim_snd_ids N2 T B2 now2 t1
  -- a row chosen by the second claim has `batch_id IS NULL` in `t1`,
  -- hence was not touched by the first claim
  have hsecond : ∀ rc ∈ claimSelect N2 T now2 t1,
      rc.id ∉ claimIds N1 T now1 t := by
    intro rc hrc
    obtain ⟨hmem, helig⟩ := mem_of_mem_claimSelect hrc
    obtain ⟨_, _, hbn, _⟩ := (eligibleB_iff T now2 rc).1 helig
    exact claim_fst_batch_none_not_claimed (ht1 ▸ hmem) hbn
  refine ⟨?_, ?_, ?_⟩
  · intro r1 h1 r2 h2
    obtain ⟨rc1, hrc1, hmap1⟩ := List.mem_map.1 h1
    obtain ⟨rc2, hrc2, hmap2⟩ := List.mem_map.1 h2
    have hin : rc1.id ∈ claimIds N1 T now1 t :=
      List.mem_map_of_mem Row.id hrc1
    have hout : rc2.id ∉ claimIds N1 T now1 t := hsecond rc2 hrc2
    rw [← hmap1, ← hmap2]
    simp only [tagRow_id]
    intro heq
    exact hout (heq ▸ hin)
  · intro r hr
    rw [hids1]
    obtain ⟨r1, hr1, hmap2⟩ := List.mem_map.1 hr
    obtain ⟨r0, hr0, hmap1⟩ := List.mem_map.1 (ht1 ▸ hr1 : r1 ∈ (claim N1 T B1 now1 t).1)
    by_cases h0 : r0.id ∈ claimIds N1 T now1 t
    · rw [if_pos h0] at hmap1
      -- the first claim tagged this row; the second claim cannot touch it
      have hnot2 : r1.id ∉ claimIds N2 T now2 t1 := by
        intro hmem2
        obtain ⟨rc, hrc, hrcid⟩ := List.mem_map.1 hmem2
        have := hsecond rc hrc
        rw [← hmap1] at hrcid
        simp only [tagRow_id] at hrcid
        exact this (hrcid ▸ h0)
      rw [if_neg hnot2] at hmap2
      rw [← hmap2, ← hmap1]
      simp [tagRow, h0]
    · rw [if_neg h0] at hmap1
      by_cases h2 : r0.id ∈ claimIds N2 T now2 t1
      · rw [← hmap1, if_pos h2] at hmap2
        rw [← hmap2]
        simp only [tagRow_batch_id, tagRow_id]
        constructor
        · intro hB
          exact absurd (Option.some.inj hB) (Ne.symm hne)
        · intro hid
          exact absurd hid h0
      · rw [← hmap1, if_neg h2] at hmap2
        rw [← hmap2]
        constructor
        · intro hB
          exact absurd hB (hB1 r0 hr0)
        · intro hid
          exact absurd hid h0
  · intro r hr
    rw [hids2]
    obtain ⟨r1, hr1, hmap2⟩ := List.mem_map.1 hr
    obtain ⟨r0, hr0, hmap1⟩ := List.mem_map.1 (ht1 ▸ hr1 : r1 ∈ (claim N1 T B1 now1 t).1)
    by_cases h0 : r0.id ∈ claimIds N1 T now1 t
    · rw [if_pos h0] at hmap1
      have hnot2 : r1.id ∉ claimIds N2 T now2 t1 := by
        intro hmem2
        obtain ⟨rc, hrc, hrcid⟩ := List.mem_map.1 hmem2
        have := hsecond rc hrc
        rw [← hmap1] at hrcid
        simp only [tagRow_id] at hrcid
        exact this (hrcid ▸ h0)
      rw [if_neg hnot2] at hmap2
      rw [← hmap2, ← hmap1]
      simp only [tagRow_batch_id, tagRow_id]
      constructor
      · intro hB
        exact absurd (Option.some.inj hB) hne
      · intro hid
        have hsame : r1.id = r0.id := by rw [← hmap1]; rfl
        exact absurd (by rw [hsame]; exact hid) hnot2
    · rw [if_neg h0] at hmap1
      by_cases h2 : r0.id ∈ claimIds N2 T now2 t1
      · rw [← hmap1, if_pos h2] at hmap2
        rw [← hmap2]
        simp only [tagRow_batch_id, tagRow_id]
        simp [h2]
      · rw [← hmap1, if_neg h2] at hmap2
        rw [← hmap2]
        constructor
        · intro hB
          exact absurd hB (hB2 r0 hr0)
        · intro hid
          exact absurd hid h2

/-- Two waiting jobs of the same type, used to exercise the claim
protocol at a concrete input. -/
def twoJobTable : Table :=
  [⟨1, "T", Status.waiting, "a", 5, none, none, none, none, none, 0, none⟩,
   ⟨2, "T", Status.waiting, "b", 3, none, none, none, none, none, 0, none⟩]

/-- Witness for `claim_no_double_claim` at a concrete two-row table. -/
theorem claim_no_double_claim_witness :
    (∀ r ∈ twoJobTable, r.batch_id ≠ some 100) ∧
    (∀ r ∈ twoJobTable, r.batch_id ≠ some 200) ∧
    ((100 : Nat) ≠ 200) ∧
    ((∀ r1 ∈ (claim 1 "T" 100 5 twoJobTable).2,
      ∀ r2 ∈ (claim 1 "T" 200 6 (claim 1 "T" 100 5 twoJobTable).1).2,
        r1.id ≠ r2.id) ∧
     (∀ r ∈ (claim 1 "T" 200 6 (claim 1 "T" 100 5 twoJobTable).1).1,
        (r.batch_id = some 100 ↔
          r.id ∈ (claim 1 "T" 100 5 twoJobTable).2.map Row.id)) ∧
     (∀ r ∈ (claim 1 "T" 200 6 (claim 1 "T" 100 5 twoJobTable).1).1,
        (r.batch_id = some 200 ↔
          r.id ∈ (claim 1 "T" 200 6 (claim 1 "T" 100 5 twoJobTable).1).2.map Row.id))) :=
  ⟨by decide, by decide, by decide,
   claim_no_double_claim 1 1 "T" 100 200 5 6 twoJobTable
     (by decide) (by decide) (by decide)⟩

/-! ## Enqueue / deduplication theorems -/

theorem liveCount_append (t : Table) (r : Row) (k : Nat) :
    liveCount (t ++ [r]) k =
      liveCount t k + (if r.unique_key = some k then 1 else 0) := by
  simp [liveCount, List.countP_append, List.countP_cons]

theorem liveCount_eq_zero_of_hasKey_false {t : Table} {k : Nat}
    (h : hasKey t k = false) : liveCount t k = 0 := by
  rw [liveCount, List.countP_eq_zero]
  intro r hr
  simp only [decide_eq_true_eq]
  intro hk
  have : hasKey t k = true := by
    simp only [hasKey, List.any_eq_true, decide_eq_true_eq]
    exact ⟨r, hr, hk⟩
  rw [h] at this
  exact Bool.false_ne_true this

theorem addJob_hasKey_mono {t : Table} {k : Nat} (jt : String)
    (j : JobSpec) (id now : Nat) (h : hasKey t k = true) :
    hasKey (addJob t jt j id now).1 k = true := by
  have happ : ∀ r : Row, hasKey (t ++ [r]) k = true := by
    intro r
    simp only [hasKey, List.any_eq_true] at h ⊢
    obtain ⟨x, hx, hk⟩ := h
    exact ⟨x, List.mem_append_left _ hx, hk⟩
  rcases hj : j.unique_key with _ | k'
  · simpa [addJob, hj] using happ _
  · by_cases hk' : hasKey t k'
    · simpa [addJob, hj, hk'] using h
    · simpa [addJob, hj, hk'] using happ _

theorem addJob_liveCount_const {t : Table} {k : Nat} (jt : String)
    (j : JobSpec) (id now : Nat) (h : hasKey t k = true) :
    liveCount (addJob t jt j id now).1 k = liveCount t k := by
  rcases hj : j.unique_key with _ | k'
  · simp [addJob, hj, liveCount_append, mkRow]
  · by_cases hk' : hasKey t k'
    · simp [addJob, hj, hk']
    · have hne : k' ≠ k := by
        intro he
        rw [he, h] at hk'
        exact hk' rfl
      simp [addJob, hj, hk', liveCount_append, mkRow, hne]

theorem addJob_liveCount_le_one {t : Table} (jt : String) (j : JobSpec)
    (id now : Nat) (hlive : ∀ k', liveCount t k' ≤ 1) :
    ∀ k', liveCount (addJob t jt j id now).1 k' ≤ 1 := by
  intro k'
  rcases hj : j.unique_key with _ | k
  · simpa [addJob, hj, liveCount_append, mkRow] using hlive k'
  · by_cases hk : hasKey t k
    · simpa [addJob, hj, hk] using hlive k'
    · by_cases he : k = k'
      · subst he
        have h0 : liveCount t k = 0 :=
          liveCount_eq_zero_of_hasKey_false (Bool.of_not_eq_true hk)
        simp [addJob, hj, hk, liveCount_append, mkRow, h0]
      · simpa [addJob, hj, hk, liveCount_append, mkRow, he] using hlive k'

theorem addJobs_cons (t : Table) (jt : String) (j : JobSpec)
    (jobs : List JobSpec) (i now : Nat) :
    addJobs t jt (j :: jobs) i now =
      addJobs (addJob t jt j i now).1 jt jobs (i + 1) now := rfl

theorem addJobs_liveCount_const {k : Nat} (jt : String)
    (jobs : List JobSpec) :
    ∀ (t : Table) (i now : Nat), hasKey t k = true →
      liveCount (addJobs t jt jobs i now) k = liveCount t k := by
  induction jobs with
  | nil => intro t i now _; rfl
  | cons j jobs ih =>
    intro t i now h
    rw [addJobs_cons]
    rw [ih _ _ _ (addJob_hasKey_mono jt j i now h)]
    exact addJob_liveCount_const jt j i now h

theorem addJobs_liveCount_le_one (jt : String) (jobs : List JobSpec) :
    ∀ (t : Table) (i now : Nat), (∀ k', liveCount t k' ≤ 1) →
      ∀ k', liveCount (addJobs t jt jobs i now) k' ≤ 1 := by
  induction jobs with
  | nil => intro t i now h; exact h
  | cons j jobs ih =>
    intro t i now h
    rw [addJobs_cons]
    exact ih _ _ _ (addJob_liveCount_le_one jt j i now h)

theorem addJob_countNone (t : Table) (jt : String) (j : JobSpec)
    (id now : Nat) :
    (addJob t jt j id now).1.countP (fun r => decide (r.unique_key = none)) =
      t.countP (fun r => decide (r.unique_key = none)) +
        (if j.unique_key = none then 1 else 0) := by
  rcases hj : j.unique_key with _ | k
  · simp [addJob, hj, List.countP_append, List.countP_cons, mkRow]
  · by_cases hk : hasKey t k
    · simp [addJob, hj, hk]
    · simp [addJob, hj, hk, List.countP_append, List.countP_cons, mkRow]

theorem addJobs_countNone (jt : String) (jobs : List JobSpec) :
    ∀ (t : Table) (i now : Nat),
      (addJobs t jt jobs i now).countP (fun r => decide (r.unique_key = none)) =
        t.countP (fun r => decide (r.unique_key = none)) +
          jobs.countP (fun j' => decide (j'.unique_key = none)) := by
  induction jobs with
  | nil => intro t i now; simp [addJobs]
  | cons j jobs ih =>
    intro t i now
    rw [addJobs_cons, ih, addJob_countNone, List.countP_cons]
    by_cases hj : j.unique_key = none
    · simp [hj]
      omega
    · simp [hj]

/-- Ten copies of the same deduplicated job (scenario S2). -/
def dedupBatch : List JobSpec :=
  List.replicate 10 { body := "b", unique_key := some 42 }

/-- Claim C3: a uniqueness conflict on `unique_key` is never an error to
the caller: a single conflicting enqueue reports `deduplicated` with row
count zero (the table is unchanged); a batch insert persists every
non-conflicting row (in particular every keyless job) while silently
dropping each conflicting row, so the live row count for an existing key
never increases and stays at most one; enqueuing 10 jobs with
`unique_key = 42` persists exactly one row. -/
theorem enqueue_dedup_not_error (t : Table) (jt : String) (j : JobSpec)
    (k id now firstId : Nat) (jobs : List JobSpec)
    (hlive : ∀ k', liveCount t k' ≤ 1) :
    (j.unique_key = some k → hasKey t k = true →
        addJob t jt j id now = (t, EnqueueOutcome.deduplicated)) ∧
    (hasKey t k = true →
        liveCount (addJobs t jt jobs firstId now) k = liveCount t k) ∧
    (∀ k', liveCount (addJobs t jt jobs firstId now) k' ≤ 1) ∧
    ((addJobs t jt jobs firstId now).countP
        (fun r => decide (r.unique_key = none)) =
      t.countP (fun r => decide (r.unique_key = none)) +
        jobs.countP (fun j' => decide (j'.unique_key = none))) ∧
    (liveCount (addJobs [] "T" dedupBatch 0 0) 42 = 1 ∧
      (addJobs [] "T" dedupBatch 0 0).length = 1) := by
  refine ⟨?_, ?_, ?_, ?_, ?_⟩
  · intro hj hk
    simp [addJob, hj, hk]
  · intro hk
    exact addJobs_liveCount_const jt jobs t firstId now hk
  · exact addJobs_liveCount_le_one jt jobs t firstId now hlive
  · exact addJobs_countNone jt jobs t firstId now
  · exact ⟨by decide, by decide⟩

/-- Witness for `enqueue_dedup_not_error` on the empty table. -/
theorem enqueue_dedup_not_error_witness :
    (∀ k', liveCount ([] : Table) k' ≤ 1) ∧
    ((({ body := "x", unique_key := some 7 } : JobSpec).unique_key = some 7 →
        hasKey ([] : Table) 7 = true →
        addJob [] "T" { body := "x", unique_key := some 7 } 0 0 =
          ([], EnqueueOutcome.deduplicated)) ∧
     (hasKey ([] : Table) 7 = true →
        liveCount (addJobs [] "T" [] 0 0) 7 = liveCount ([] : Table) 7) ∧
     (∀ k', liveCount (addJobs [] "T" [] 0 0) k' ≤ 1) ∧
     ((addJobs [] "T" [] 0 0).countP (fun r => decide (r.unique_key = none)) =
        ([] : Table).countP (fun r => decide (r.unique_key = none)) +
          ([] : List JobSpec).countP (fun j' => decide (j'.unique_key = none))) ∧
     (liveCount (addJobs [] "T" dedupBatch 0 0) 42 = 1 ∧
        (addJobs [] "T" dedupBatch 0 0).length = 1)) :=
  ⟨fun _ => by simp [liveCount],
   enqueue_dedup_not_error [] "T" { body := "x", unique_key := some 7 }
     7 0 0 0 [] (fun _ => by simp [liveCount])⟩

/-! ## Recovery theorems -/

/-- Claim C5: within one recoverer tick, every row of the queue's
`job_type` with status `processing` whose `started_ts` is older than the
recovery threshold is transitioned back to `waiting` with `batch_id`
cleared and `recovered = 1`; rows not matching are untouched; afterwards
no row of the queue still counts as stuck; the operation returns the
number of rows so moved; and the threshold defaults to one minute. -/
theorem recover_stuck_rows (T : String) (thr now : Nat) (t : Table) :
    (∀ r ∈ t, stuckB T thr now r = true →
        { r with status := Status.waiting, batch_id := none,
                 recovered := 1 } ∈ (recoverStuck T thr now t).1) ∧
    (∀ r ∈ t, stuckB T thr now r = false →
        r ∈ (recoverStuck T thr now t).1) ∧
    (∀ r' ∈ (recoverStuck T thr now t).1, stuckB T thr now r' = false) ∧
    ((recoverStuck T thr now t).2 =
        (t.countP (stuckB T thr now))) ∧
    defaultRecoveryThreshold = 60 := by
  refine ⟨?_, ?_, ?_, ?_, rfl⟩
  · intro r hr hs
    have : (if stuckB T thr now r then
        { r with status := Status.waiting, batch_id := none,
                 recovered := 1 } else r) ∈ (recoverStuck T thr now t).1 :=
      List.mem_map_of_mem _ hr
    rwa [if_pos hs] at this
  · intro r hr hs
    have : (if stuckB T thr now r then
        { r with status := Status.waiting, batch_id := none,
                 recovered := 1 } else r) ∈ (recoverStuck T thr now t).1 :=
      List.mem_map_of_mem _ hr
    rwa [if_neg (by simp [hs])] at this
  · intro r' hr'
    obtain ⟨r, _, hmap⟩ := List.mem_map.1 hr'
    by_cases hs : stuckB T thr now r = true
    · rw [if_pos hs] at hmap
      rw [← hmap]
      simp [stuckB]
    · rw [if_neg hs] at hmap
      rw [← hmap]
      exact Bool.of_not_eq_true hs
  · simp [recoverStuck, List.countP_eq_length_filter]

/-! ## Dispatcher theorems -/

theorem dstep_preserves_DInv {c : Nat} {l : DLabel} {s s' : DState}
    (hinv : DInv c s) (h : dstep c l s = some s') : DInv c s' := by
  obtain ⟨h1, h2⟩ := hinv
  cases l with
  | startFetch =>
    simp only [dstep] at h
    split at h
    · rename_i hc
      obtain ⟨hf, hlt⟩ := hc
      cases h
      refine ⟨h1, fun _ => ?_⟩
      simp only []
      omega
    · exact absurd h (by simp)
  | finishFetch found =>
    simp only [dstep] at h
    split at h
    · rename_i hc
      obtain ⟨hf, hle⟩ := hc
      cases h
      refine ⟨?_, fun hfalse => by simp at hfalse⟩
      have := h2 hf
      simp only []
      omega
    · exact absurd h (by simp)
  | jobDone =>
    simp only [dstep] at h
    split at h
    · cases h
      refine ⟨by simp only []; omega, fun hf => ?_⟩
      have := h2 hf
      simp only []
      omega
    · exact absurd h (by simp)

theorem drun_preserves_DInv (c : Nat) (ls : List DLabel) :
    ∀ s : DState, DInv c s → DInv c (drun c ls s) := by
  induction ls with
  | nil => intro s h; exact h
  | cons l ls ih =>
    intro s h
    show DInv c (drun c ls ((dstep c l s).getD s))
    apply ih
    cases hstep : dstep c l s with
    | none => simpa using h
    | some s' => simpa using dstep_preserves_DInv h hstep

/-- Claim C8: every dispatcher step preserves `0 ≤ inflight ≤
concurrency` (the lower bound is carried by the `Nat` type), and along
any sequence of attempted actions from the initial state the invariant
holds, however often the poller fires; a batch request can only start
while no other is outstanding (`fetching` guard) and asks for exactly
the free slots `concurrency - inflight`. -/
theorem dispatcher_inflight_bounded (c : Nat) (l : DLabel)
    (s s' : DState) (ls : List DLabel) (hinv : DInv c s) :
    (dstep c l s = some s' → DInv c s') ∧
    (s.fetching = true → dstep c DLabel.startFetch s = none) ∧
    (s.fetching = false → s.inflight < c →
        dstep c DLabel.startFetch s =
          some { inflight := s.inflight, fetching := true,
                 requested := c - s.inflight }) ∧
    DInv c initDState ∧
    DInv c (drun c ls initDState) := by
  refine ⟨fun h => dstep_preserves_DInv hinv h, ?_, ?_, ?_, ?_⟩
  · intro hf
    simp [dstep, hf]
  · intro hf hlt
    simp [dstep, hf, hlt]
  · exact ⟨Nat.zero_le c, fun h => by simp [initDState] at h⟩
  · exact drun_preserves_DInv c ls initDState
      ⟨Nat.zero_le c, fun h => by simp [initDState] at h⟩

/-- Witness for `dispatcher_inflight_bounded` at concurrency 2. -/
theorem dispatcher_inflight_bounded_witness :
    DInv 2 initDState ∧
    ((dstep 2 DLabel.startFetch initDState =
        some { inflight := 0, fetching := true, requested := 2 } →
        DInv 2 { inflight := 0, fetching := true, requested := 2 }) ∧
     (initDState.fetching = true →
        dstep 2 DLabel.startFetch initDState = none) ∧
     (initDState.fetching = false → initDState.inflight < 2 →
        dstep 2 DLabel.startFetch initDState =
          some { inflight := initDState.inflight, fetching := true,
                 requested := 2 - initDState.inflight }) ∧
     DInv 2 initDState ∧
     DInv 2 (drun 2 [DLabel.startFetch, DLabel.finishFetch 2,
                     DLabel.jobDone] initDState)) :=
  ⟨by decide,
   dispatcher_inflight_bounded 2 DLabel.startFetch initDState
     { inflight := 0, fetching := true, requested := 2 }
     [DLabel.startFetch, DLabel.finishFetch 2, DLabel.jobDone]
     (by decide)⟩

/-! ## Supervisor theorems -/

theorem supStep_settled {timeout : Nat} {g : SupGate}
    (h : g.settled = true) (e : RaceEvent) : supStep timeout g e = g := by
  simp [supStep, h]

theorem foldl_supStep_settled (timeout : Nat) (events : List RaceEvent) :
    ∀ g : SupGate, g.settled = true →
      events.foldl (supStep timeout) g = g := by
  induction events with
  | nil => intro g _; rfl
  | cons e events ih =>
    intro g h
    show events.foldl (supStep timeout) (supStep timeout g e) = g
    rw [supStep_settled h]
    exact ih g h

/-- Claim C4: when the work function fails or the timeout timer fires
first, the single-shot first-finisher gate settles on `error`: the
`on_job_error` callback fires exactly once over the whole event
sequence, any late work result is discarded (callbacks included, the
recorded outcome unchanged), the row is finalized with status `error`
and a result that names the timeout in the timeout case, and the
timeout defaults to 60 seconds. -/
theorem supervisor_failure_and_timeout (timeout : Nat) (m : String)
    (rest : List RaceEvent) (jobId now : Nat) (t : Table)
    (encode : Json → String) (r : Row)
    (hr : r ∈ t) (hid : r.id = jobId) (hst : r.status = Status.processing) :
    (runSup timeout (RaceEvent.timerFired :: rest) =
        { settled := true,
          action := some (Classification.error (timeoutDesc timeout)),
          successCbs := 0, errorCbs := 1 }) ∧
    (runSup timeout (RaceEvent.workDone (WorkOutcome.thrown m) :: rest) =
        { settled := true,
          action := some (Classification.error (errorDesc m)),
          successCbs := 0, errorCbs := 1 }) ∧
    ({ r with status := Status.error,
              result := some (timeoutDesc timeout),
              running_time := some (now - r.started_ts.getD now),
              unique_key := none } ∈
        superviseStore jobId timeout now (RaceEvent.timerFired :: rest)
          encode t) ∧
    defaultTimeout = 60 := by
  have htimer : runSup timeout (RaceEvent.timerFired :: rest) =
      { settled := true,
        action := some (Classification.error (timeoutDesc timeout)),
        successCbs := 0, errorCbs := 1 } := by
    show rest.foldl (supStep timeout)
        (supStep timeout initGate RaceEvent.timerFired) = _
    rw [show supStep timeout initGate RaceEvent.timerFired =
        { settled := true,
          action := some (Classification.error (timeoutDesc timeout)),
          successCbs := 0, errorCbs := 1 } from rfl]
    exact foldl_supStep_settled timeout rest _ rfl
  refine ⟨htimer, ?_, ?_, rfl⟩
  · show rest.foldl (supStep timeout)
        (supStep timeout initGate (RaceEvent.workDone (WorkOutcome.thrown m))) = _
    rw [show supStep timeout initGate
          (RaceEvent.workDone (WorkOutcome.thrown m)) =
        { settled := true,
          action := some (Classification.error (errorDesc m)),
          successCbs := 0, errorCbs := 1 } from rfl]
    exact foldl_supStep_settled timeout rest _ rfl
  · rw [superviseStore, htimer]
    have : (if r.id = jobId ∧ r.status = Status.processing then
        { r with status := (Outcome.error (timeoutDesc timeout)).status,
                 result := some (Outcome.error (timeoutDesc timeout)).result,
                 running_time := some (now - r.started_ts.getD now),
                 unique_key := none }
      else r) ∈ finalize jobId (Outcome.error (timeoutDesc timeout)) now t :=
      List.mem_map_of_mem _ hr
    rwa [if_pos ⟨hid, hst⟩] at this

/-- A trivial encoder, standing in for the caller-supplied serializer
(spec §1 leaves the serialization format out of scope). -/
def encodeConst : Json → String := fun _ => ""

/-- A claimed (processing) job row, used as concrete supervisor input. -/
def procRow : Row :=
  ⟨1, "T", Status.processing, "payload", 5, some 0, some 77, some 8,
   some 3, none, 0, none⟩

/-- Witness for `supervisor_failure_and_timeout` at a concrete
processing row and timeout 5. -/
theorem supervisor_failure_and_timeout_witness :
    (procRow ∈ [procRow] ∧ procRow.id = 1 ∧
      procRow.status = Status.processing) ∧
    ((runSup 5 [RaceEvent.timerFired] =
        { settled := true,
          action := some (Classification.error (timeoutDesc 5)),
          successCbs := 0, errorCbs := 1 }) ∧
     (runSup 5 [RaceEvent.workDone (WorkOutcome.thrown "boom")] =
        { settled := true,
          action := some (Classification.error (errorDesc "boom")),
          successCbs := 0, errorCbs := 1 }) ∧
     ({ procRow with status := Status.error,
                     result := some (timeoutDesc 5),
                     running_time := some (10 - procRow.started_ts.getD 10),
                     unique_key := none } ∈
        superviseStore 1 5 10 [RaceEvent.timerFired] encodeConst [procRow]) ∧
     defaultTimeout = 60) :=
  ⟨⟨by simp, rfl, rfl⟩,
   supervisor_failure_and_timeout 5 "boom" [] 1 10 [procRow] encodeConst
     procRow (by simp) rfl rfl⟩

/-- Claim C6: a work function returning a value whose encoded form has
the retry sentinel shape with a non-negative delay `S` makes the
supervisor settle on `retry` — so the store call is `Requeue`, not
`Finalize`, and neither user callback fires — after which the row
re-appears `waiting` with `batch_id` NULL, the same body, and its
`start_time` advanced by `S`, and a subsequent claim re-delivers that
same body. -/
theorem supervisor_retry_sentinel (timeout jobId now now2 B : Nat)
    (S : Int) (fields : List (String × Json)) (rest : List RaceEvent)
    (t : Table) (encode : Json → String) (r : Row)
    (hS : 0 ≤ S)
    (hf : lookupField retryKey fields = some (Json.num S))
    (hr : r ∈ t) (hid : r.id = jobId) (hst : r.status = Status.processing)
    (hnow2 : now + S.toNat ≤ now2) :
    (runSup timeout
        (RaceEvent.workDone (WorkOutcome.value (Json.obj fields)) :: rest) =
      { settled := true, action := some (Classification.retry S),
        successCbs := 0, errorCbs := 0 }) ∧
    ({ r with status := Status.waiting, batch_id := none,
              start_time := some (now + S.toNat) } ∈
        superviseStore jobId timeout now
          (RaceEvent.workDone (WorkOutcome.value (Json.obj fields)) :: rest)
          encode t) ∧
    ({ r with status := Status.waiting, batch_id := none,
              start_time := some (now + S.toNat) }.body = r.body) ∧
    ((claim 1 r.job_type B now2
        [{ r with status := Status.waiting, batch_id := none,
                  start_time := some (now + S.toNat) }]).2.map Row.body =
      [r.body]) := by
  have hdet : detectRetry (Json.obj fields) = some S := by
    simp [detectRetry, hf, hS]
  have hclass : classify timeout
      (RaceEvent.workDone (WorkOutcome.value (Json.obj fields))) =
      Classification.retry S := by
    simp [classify, hdet]
  have hgate : runSup timeout
      (RaceEvent.workDone (WorkOutcome.value (Json.obj fields)) :: rest) =
      { settled := true, action := some (Classification.retry S),
        successCbs := 0, errorCbs := 0 } := by
    show rest.foldl (supStep timeout)
        (supStep timeout initGate
          (RaceEvent.workDone (WorkOutcome.value (Json.obj fields)))) = _
    rw [show supStep timeout initGate
          (RaceEvent.workDone (WorkOutcome.value (Json.obj fields))) =
        { settled := true, action := some (Classification.retry S),
          successCbs := 0, errorCbs := 0 } by
      simp [supStep, initGate, hclass]]
    exact foldl_supStep_settled timeout rest _ rfl
  set r' : Row := { r with status := Status.waiting, batch_id := none,
                           start_time := some (now + S.toNat) } with hr'
  refine ⟨hgate, ?_, rfl, ?_⟩
  · rw [superviseStore, hgate]
    have : (if r.id = jobId ∧ r.status = Status.processing then
        { r with status := Status.waiting, batch_id := none,
                 start_time := some (now + S.toNat) }
      else r) ∈ requeue jobId S.toNat now t :=
      List.mem_map_of_mem _ hr
    rwa [if_pos ⟨hid, hst⟩] at this
  · have helig : eligibleB r.job_type now2 r' = true := by
      simp [eligibleB, hr', hnow2]
    have hsel : claimSelect 1 r.job_type now2 [r'] = [r'] := by
      simp [claimSelect, List.filter, helig, List.insertionSort,
        List.orderedInsert]
    simp [claim, hsel, tagRow]

/-- Witness for `supervisor_retry_sentinel`: a sentinel return
`\x7b _oxen_queue_retry_seconds: 30 \x7d` on the concrete processing
row. -/
theorem supervisor_retry_sentinel_witness :
    ((0 : Int) ≤ 30 ∧
     lookupField retryKey [(retryKey, Json.num 30)] = some (Json.num 30) ∧
     procRow ∈ [procRow] ∧ procRow.id = 1 ∧
     procRow.status = Status.processing ∧
     10 + (30 : Int).toNat ≤ 100) ∧
    ((runSup 60
        (RaceEvent.workDone
          (WorkOutcome.value (Json.obj [(retryKey, Json.num 30)])) :: []) =
      { settled := true, action := some (Classification.retry 30),
        successCbs := 0, errorCbs := 0 }) ∧
     ({ procRow with status := Status.waiting, batch_id := none,
                     start_time := some (10 + (30 : Int).toNat) } ∈
        superviseStore 1 60 10
          (RaceEvent.workDone
            (WorkOutcome.value (Json.obj [(retryKey, Json.num 30)])) :: [])
          encodeConst [procRow]) ∧
     ({ procRow with status := Status.waiting, batch_id := none,
                     start_time := some (10 + (30 : Int).toNat) }.body =
        procRow.body) ∧
     ((claim 1 procRow.job_type 9 100
        [{ procRow with status := Status.waiting, batch_id := none,
                        start_time := some (10 + (30 : Int).toNat) }]).2.map
          Row.body = [procRow.body])) :=
  ⟨⟨by decide, by simp [lookupField], by simp, rfl, rfl, by decide⟩,
   supervisor_retry_sentinel 60 1 10 100 9 30 [(retryKey, Json.num 30)]
     [] [procRow] encodeConst procRow (by decide) (by simp [lookupField])
     (by simp) rfl rfl (by decide)⟩

/-! ## Poller theorems -/

/-- Closed form of the idle delay: after `k` empty polls the delay is
the backoff geometric growth capped at the slowest rate. -/
theorem idlePolls_closed (dmin dmax b : ℚ) (hb : 1 ≤ b) :
    ∀ (k : Nat) (d : ℚ), 0 < d → d ≤ dmax →
      idlePolls dmin dmax b k d = min dmax (d * b ^ k) := by
  intro k
  induction k with
  | zero =>
    intro d hd hdm
    simp [idlePolls, min_eq_right hdm]
  | succ k ih =>
    intro d hd hdm
    have hb0 : (0 : ℚ) < b := lt_of_lt_of_le one_pos hb
    have hdmax0 : (0 : ℚ) < dmax := lt_of_lt_of_le hd hdm
    have hdb : (0 : ℚ) < d * b := mul_pos hd hb0
    show idlePolls dmin dmax b k (pollStep dmin dmax b 0 d) = _
    rw [show pollStep dmin dmax b 0 d = min dmax (d * b) by
      simp [pollStep]]
    rw [ih (min dmax (d * b)) (lt_min hdmax0 hdb) (min_le_left _ _)]
    rcases le_or_lt (d * b) dmax with hc | hc
    · rw [min_eq_right hc]
      congr 1
      rw [pow_succ]
      ring
    · rw [min_eq_left hc.le]
      rw [min_eq_left
        (le_mul_of_one_le_right hdmax0.le (one_le_pow₀ hb))]
      rw [min_eq_left ?lower]
      case lower =>
        calc dmax ≤ d * b := hc.le
        _ ≤ d * b * b ^ k :=
          le_mul_of_one_le_right hdb.le (one_le_pow₀ hb)
        _ = d * b ^ (k + 1) := by rw [pow_succ]; ring

/-- After enough empty polls the growth passes the cap: `dmin * b ^ k ≥
dmax` once `k ≥ log (dmax / dmin) / log b`. -/
theorem backoff_reaches_cap (dmin dmax b : ℚ) (hb : 1 < b)
    (h0 : 0 < dmin) (hle : dmin ≤ dmax)
    {k : Nat}
    (hk : Real.log ((dmax : ℝ) / (dmin : ℝ)) / Real.log (b : ℝ) ≤ (k : ℝ)) :
    dmax ≤ dmin * b ^ k := by
  have hbR : (1 : ℝ) < (b : ℝ) := by exact_mod_cast hb
  have h0R : (0 : ℝ) < (dmin : ℝ) := by exact_mod_cast h0
  have hleR : (dmin : ℝ) ≤ (dmax : ℝ) := by exact_mod_cast hle
  have hdmaxR : (0 : ℝ) < (dmax : ℝ) := lt_of_lt_of_le h0R hleR
  have hratio : (0 : ℝ) < (dmax : ℝ) / (dmin : ℝ) := div_pos hdmaxR h0R
  have hlogb : (0 : ℝ) < Real.log (b : ℝ) := Real.log_pos hbR
  have hklog : Real.log ((dmax : ℝ) / (dmin : ℝ)) ≤ (k : ℝ) * Real.log (b : ℝ) :=
    (div_le_iff₀ hlogb).1 hk
  have hexp : (dmax : ℝ) / (dmin : ℝ) ≤ ((b : ℝ)) ^ k := by
    calc (dmax : ℝ) / (dmin : ℝ)
        = Real.exp (Real.log ((dmax : ℝ) / (dmin : ℝ))) :=
          (Real.exp_log hratio).symm
      _ ≤ Real.exp ((k : ℝ) * Real.log (b : ℝ)) :=
          Real.exp_le_exp.2 hklog
      _ = Real.exp (Real.log (b : ℝ)) ^ k := Real.exp_nat_mul _ k
      _ = ((b : ℝ)) ^ k := by
          rw [Real.exp_log (lt_trans one_pos hbR)]
  have : (dmax : ℝ) ≤ (dmin : ℝ) * ((b : ℝ)) ^ k :=
    (div_le_iff₀' h0R).1 hexp
  exact_mod_cast this

/-- Claim C7: the inter-poll delay starts at the fastest rate and is
updated after each poll by exactly: reset to the fastest rate when the
poll found a job, else multiply by the backoff factor capped at the
slowest rate; while the queue stays empty the delay never decreases,
and it reaches the slowest rate within
`⌈log (dmax / dmin) / log backoff⌉` empty polls; the defaults are
100 ms, 10000 ms and 1.1. -/
theorem poller_backoff (dmin dmax b d : ℚ) (found : Nat)
    (hb : 1 < b) (h0 : 0 < dmin) (hle : dmin ≤ dmax)
    (hd0 : 0 < d) (hdm : d ≤ dmax) :
    (0 < found → pollStep dmin dmax b found d = dmin) ∧
    (pollStep dmin dmax b 0 d = min dmax (d * b)) ∧
    (d ≤ pollStep dmin dmax b 0 d) ∧
    (∀ k : Nat,
        idlePolls dmin dmax b k d ≤ idlePolls dmin dmax b (k + 1) d) ∧
    (idlePolls dmin dmax b
        (⌈Real.log ((dmax : ℝ) / (dmin : ℝ)) / Real.log (b : ℝ)⌉₊)
        dmin = dmax) ∧
    (defaultFastestPollingRate = 100 ∧
      defaultSlowestPollingRate = 10000 ∧
      defaultPollingBackoffRate = 11 / 10) := by
  have hb1 : (1 : ℚ) ≤ b := hb.le
  refine ⟨?_, ?_, ?_, ?_, ?_, rfl, rfl, rfl⟩
  · intro hf
    simp [pollStep, hf]
  · simp [pollStep]
  · rw [show pollStep dmin dmax b 0 d = min dmax (d * b) by
      simp [pollStep]]
    exact le_min hdm (le_mul_of_one_le_right hd0.le hb1)
  · intro k
    rw [idlePolls_closed dmin dmax b hb1 k d hd0 hdm,
      idlePolls_closed dmin dmax b hb1 (k + 1) d hd0 hdm]
    refine min_le_min le_rfl ?_
    refine mul_le_mul_of_nonneg_left ?_ hd0.le
    exact pow_le_pow_right₀ hb1 (Nat.le_succ k)
  · rw [idlePolls_closed dmin dmax b hb1 _ dmin h0 hle]
    refine min_eq_left ?_
    refine backoff_reaches_cap dmin dmax b hb h0 hle ?_
    exact Nat.le_ceil _

/-- Witness for `poller_backoff` at the default configuration. -/
theorem poller_backoff_witness :
    ((1 : ℚ) < 11 / 10 ∧ (0 : ℚ) < 100 ∧ (100 : ℚ) ≤ 10000 ∧
      (0 : ℚ) < 100 ∧ (100 : ℚ) ≤ 10000) ∧
    ((0 < 1 → pollStep 100 10000 (11 / 10) 1 100 = 100) ∧
     (pollStep 100 10000 (11 / 10) 0 100 = min 10000 (100 * (11 / 10))) ∧
     ((100 : ℚ) ≤ pollStep 100 10000 (11 / 10) 0 100) ∧
     (∀ k : Nat, idlePolls 100 10000 (11 / 10) k 100 ≤
        idlePolls 100 10000 (11 / 10) (k + 1) 100) ∧
     (idlePolls 100 10000 (11 / 10)
        (⌈Real.log (((10000 : ℚ) : ℝ) / ((100 : ℚ) : ℝ)) /
            Real.log ((11 / 10 : ℚ) : ℝ)⌉₊) 100 = 10000) ∧
     (defaultFastestPollingRate = 100 ∧
       defaultSlowestPollingRate = 10000 ∧
       defaultPollingBackoffRate = 11 / 10)) :=
  ⟨⟨by norm_num, by norm_num, by norm_num, by norm_num, by norm_num⟩,
   poller_backoff 100 10000 (11 / 10) 100 1 (by norm_num) (by norm_num)
     (by norm_num) (by norm_num) (by norm_num)⟩

/-! ## Finalize frame and terminality -/

/-- Counterexample to claim C9 as stated: finalizing the concrete
processing row does not leave `unique_key` untouched — the dedup key is
cleared, exactly as the repository documents ("This constraint is
removed once the job finishes"), so the dedup constraint IS released by
the engine at finalize. -/
theorem finalize_releases_unique_key_cex :
    (finalize 1 (Outcome.success "ok") 10 [procRow]).map Row.unique_key =
        [none] ∧
    procRow.unique_key = some 8 := by
  decide

/-- Claim C9 (amended): `Finalize(id, outcome)` updates only `status`,
`result`, `running_time` (computed as `now - started_ts`) and
`unique_key` — which it clears, releasing the dedup constraint for the
finished job per the repository documentation — leaving `batch_id` and
every other field untouched; and a terminal row (`success` or `error`)
is never changed or deleted by any engine operation (finalize, requeue,
recovery, claim): deletion is solely the operator's responsibility. -/
theorem finalize_frame_and_terminal (id now : Nat) (o : Outcome)
    (t : Table) (N : Nat) (T : String) (B now2 thr delay fid : Nat)
    (fo : Outcome) (r : Row)
    (hnodup : (t.map Row.id).Nodup)
    (hterm : r.status = Status.success ∨ r.status = Status.error)
    (hr : r ∈ t) :
    (∀ r0 ∈ t, ∃ r1 ∈ finalize id o now t,
        r1.batch_id = r0.batch_id ∧ r1.id = r0.id ∧
        r1.job_type = r0.job_type ∧ r1.body = r0.body ∧
        r1.priority = r0.priority ∧ r1.start_time = r0.start_time ∧
        r1.started_ts = r0.started_ts ∧ r1.recovered = r0.recovered ∧
        ((r0.id = id ∧ r0.status = Status.processing) →
            r1.status = o.status ∧ r1.result = some o.result ∧
            r1.running_time = some (now - r0.started_ts.getD now) ∧
            r1.unique_key = none) ∧
        (¬(r0.id = id ∧ r0.status = Status.processing) → r1 = r0)) ∧
    (r ∈ finalize fid fo now t) ∧
    (r ∈ requeue fid delay now t) ∧
    (r ∈ (recoverStuck T thr now2 t).1) ∧
    (r ∈ (claim N T B now2 t).1) ∧
    ((finalize id o now t).length = t.length ∧
      (requeue fid delay now t).length = t.length ∧
      (recoverStuck T thr now2 t).1.length = t.length ∧
      (claim N T B now2 t).1.length = t.length) := by
  have hproc : r.status ≠ Status.processing := by
    rcases hterm with h | h <;> (rw [h]; intro hcontra; cases hcontra)
  have hwait : r.status ≠ Status.waiting := by
    rcases hterm with h | h <;> (rw [h]; intro hcontra; cases hcontra)
  refine ⟨?_, ?_, ?_, ?_, ?_, ?_, ?_, ?_, ?_⟩
  · intro r0 hr0
    refine ⟨(if r0.id = id ∧ r0.status = Status.processing then
        { r0 with status := o.status, result := some o.result,
                  running_time := some (now - r0.started_ts.getD now),
                  unique_key := none }
      else r0), List.mem_map_of_mem _ hr0, ?_⟩
    by_cases hc : r0.id = id ∧ r0.status = Status.processing
    · rw [if_pos hc]
      refine ⟨rfl, rfl, rfl, rfl, rfl, rfl, rfl, rfl,
        fun _ => ⟨rfl, rfl, rfl, rfl⟩, fun hn => absurd hc hn⟩
    · rw [if_neg hc]
      exact ⟨rfl, rfl, rfl, rfl, rfl, rfl, rfl, rfl,
        fun hcon => absurd hcon hc, fun _ => rfl⟩
  · have : (if r.id = fid ∧ r.status = Status.processing then
        { r with status := fo.status, result := some fo.result,
                 running_time := some (now - r.started_ts.getD now),
                 unique_key := none }
      else r) ∈ finalize fid fo now t := List.mem_map_of_mem _ hr
    rwa [if_neg (fun hc => hproc hc.2)] at this
  · have : (if r.id = fid ∧ r.status = Status.processing then
        { r with status := Status.waiting, batch_id := none,
                 start_time := some (now + delay) }
      else r) ∈ requeue fid delay now t := List.mem_map_of_mem _ hr
    rwa [if_neg (fun hc => hproc hc.2)] at this
  · have hstuck : stuckB T thr now2 r = false := by
      rcases hterm with h | h <;> simp [stuckB, h]
    have : (if stuckB T thr now2 r then
        { r with status := Status.waiting, batch_id := none,
                 recovered := 1 }
      else r) ∈ (recoverStuck T thr now2 t).1 := List.mem_map_of_mem _ hr
    rwa [if_neg (by simp [hstuck])] at this
  · have hnot : r.id ∉ claimIds N T now2 t := by
      intro hmem
      obtain ⟨rc, hrc, hrcid⟩ := List.mem_map.1 hmem
      obtain ⟨hrcmem, helig⟩ := mem_of_mem_claimSelect hrc
      obtain ⟨_, hrcw, _, _⟩ := (eligibleB_iff T now2 rc).1 helig
      have : rc = r := List.inj_on_of_nodup_map hnodup hrcmem hr hrcid
      rw [this] at hrcw
      exact hwait hrcw
    have : (if r.id ∈ claimIds N T now2 t then tagRow B now2 r else r) ∈
        (claim N T B now2 t).1 := List.mem_map_of_mem _ hr
    rwa [if_neg hnot] at this
  · exact List.length_map t _
  · exact List.length_map t _
  · exact List.length_map t _
  · exact List.length_map t _

/-- A terminal (successful) row, used as concrete input. -/
def doneRow : Row :=
  ⟨3, "T", Status.success, "done", 1, some 0, some 55, some 88,
   some 2, some "ok", 0, some 4⟩

/-- Witness for `finalize_frame_and_terminal`: the concrete terminal
row in a two-row table is untouched by every engine operation. -/
theorem finalize_frame_and_terminal_witness :
    (([procRow, doneRow].map Row.id).Nodup ∧
      (doneRow.status = Status.success ∨
        doneRow.status = Status.error) ∧
      doneRow ∈ [procRow, doneRow]) ∧
    ((∀ r0 ∈ [procRow, doneRow],
        ∃ r1 ∈ finalize 1 (Outcome.success "ok") 10 [procRow, doneRow],
        r1.batch_id = r0.batch_id ∧ r1.id = r0.id ∧
        r1.job_type = r0.job_type ∧ r1.body = r0.body ∧
        r1.priority = r0.priority ∧ r1.start_time = r0.start_time ∧
        r1.started_ts = r0.started_ts ∧ r1.recovered = r0.recovered ∧
        ((r0.id = 1 ∧ r0.status = Status.processing) →
            r1.status = (Outcome.success "ok").status ∧
            r1.result = some (Outcome.success "ok").result ∧
            r1.running_time = some (10 - r0.started_ts.getD 10) ∧
            r1.unique_key = none) ∧
        (¬(r0.id = 1 ∧ r0.status = Status.processing) → r1 = r0)) ∧
     (doneRow ∈ finalize 3 (Outcome.error "e") 10 [procRow, doneRow]) ∧
     (doneRow ∈ requeue 3 7 10 [procRow, doneRow]) ∧
     (doneRow ∈ (recoverStuck "T" 60 500 [procRow, doneRow]).1) ∧
     (doneRow ∈ (claim 2 "T" 9 500 [procRow, doneRow]).1) ∧
     ((finalize 1 (Outcome.success "ok") 10 [procRow, doneRow]).length =
          [procRow, doneRow].length ∧
       (requeue 3 7 10 [procRow, doneRow]).length =
          [procRow, doneRow].length ∧
       (recoverStuck "T" 60 500 [procRow, doneRow]).1.length =
          [procRow, doneRow].length ∧
       (claim 2 "T" 9 500 [procRow, doneRow]).1.length =
          [procRow, doneRow].length)) :=
  ⟨⟨by decide, Or.inl rfl, by simp⟩,
   finalize_frame_and_terminal 1 10 (Outcome.success "ok")
     [procRow, doneRow] 2 "T" 9 500 60 7 3 (Outcome.error "e") doneRow
     (by decide) (Or.inl rfl) (by simp)⟩

/-! ## Public retry configuration (src/types.ts) -/

/-- Claim C10: the public `process()` configuration accepts `maxRetry`
and `retryDelay`, the latter either a fixed number of seconds or a
function of the attempt number, and the engine's `RetryConfig` record
tracks the current attempt (`currentTry`), so retry scheduling is
bounded and configurable per attempt at the public interface. -/
theorem process_config_retry_surface (wf : Json → WorkOutcome)
    (c tmo : Option Nat) (rs : Option Bool) (m s k jid : Nat)
    (f : Nat → Nat) :
    ((ProcessConfig.mk wf c tmo rs (some m)
        (some (RetryDelay.fixed s))).maxRetry = some m) ∧
    ((ProcessConfig.mk wf c tmo rs (some m)
        (some (RetryDelay.perAttempt f))).retryDelay =
      some (RetryDelay.perAttempt f)) ∧
    (resolveRetryDelay (RetryDelay.fixed s) k = s) ∧
    (resolveRetryDelay (RetryDelay.perAttempt f) k = f k) ∧
    ((RetryConfig.mk jid (RetryDelay.perAttempt f) k).currentTry = k) ∧
    ((RetryConfig.mk jid (RetryDelay.fixed s) k).retrySeconds =
      RetryDelay.fixed s) :=
  ⟨rfl, rfl, rfl, rfl, rfl, rfl⟩

end OxenQueue
